import Mathlib

/-!
# Verification of the 16dollars Day-Window Budget Engine

Shallow embedding of the time/budget utilities of the 16dollars app
(`src/utils/time.ts`, together with the activity-construction code of
`ActivityModal`), and proofs of the specification's claims about them.

Modelling conventions:
* A JavaScript `Date` is modelled by the integer number of milliseconds it
  denotes, measured on the local wall clock.  All times in this app are local
  wall-clock times and the spec declares the engine DST-naive, so local days
  are uniformly `86400000` ms long and `setDate(getDate() ± 1)` is `± 86400000`.
* `getHours() * 60 + getMinutes()` becomes `minutesOfDay`, computed with
  floor division / Euclidean remainder, matching `Date`'s behaviour on
  instants before the epoch as well.
* JavaScript `number` arithmetic on these quantities is modelled in `ℚ`;
  the millisecond values that arise are integers, and the divisions by
  `3600000` are treated exactly.
* `durationHoursAcrossMidnight` / `overlapsDayWindow` receive ISO-8601
  strings in the source and immediately `parseISO` them; they are modelled
  directly on the instants those strings denote.
* JavaScript strings are Lean `String`s; `split(':')` is modelled by
  `splitCols` on the character list, `parseInt` / `Number` on all-digit
  pieces by `listNat`, and `toString().padStart(2, '0')` (applied to values
  `≤ 99`) by `pad2c`.
-/

namespace SixteenDollars

/-- Milliseconds per minute. -/
def msPerMin : ℤ := 60000

/-- Milliseconds per hour. -/
def msPerHour : ℤ := 3600000

/-- Milliseconds per (DST-free local) day. -/
def msPerDay : ℤ := 86400000

/-- Local calendar-day index of an instant (floor of division by one day). -/
def dayIndex (t : ℤ) : ℤ := Int.fdiv t msPerDay

/-- Milliseconds elapsed since local midnight of the instant's day. -/
def msOfDay (t : ℤ) : ℤ := Int.emod t msPerDay

/-- Models `getHours() * 60 + getMinutes()`: whole minutes since local midnight. -/
def minutesOfDay (t : ℤ) : ℤ := Int.fdiv (msOfDay t) msPerMin

/-- Builds an instant on local calendar day `d` at `h` hours `m` minutes. -/
def mkInstant (d h m : ℤ) : ℤ := d * msPerDay + (h * 60 + m) * msPerMin

/-- Settings record `UserSettings` from `types.ts`, restricted to the fields the time engine
reads (the optional theme/goals/quick-action fields are opaque to it). -/
structure UserSettings where
  bedtime : String
  wakeTime : String

/-- Tagged union `TimeReference` from `types.ts`: a symbolic anchor used by quick actions. -/
inductive TimeReference where
  | bedtime : TimeReference
  | wakeTime : TimeReference
  | offset (minutes : ℤ) : TimeReference

/-- Decimal value of an all-digit character list, as computed by
`parseInt(s, 10)` / `Number(s)` on such strings. -/
def listNat (l : List Char) : ℕ := l.foldl (fun a c => a * 10 + (c.toNat - 48)) 0

/-- Models `String.split(':')` on the character list: splits at every `':'`. -/
def splitCols : List Char → List (List Char)
  | [] => [[]]
  | c :: rest =>
    if c = ':' then [] :: splitCols rest
    else
      match splitCols rest with
      | [] => [[c]]
      | h :: t => (c :: h) :: t

/-- Models `n.toString().padStart(2, '0')` for `n ≤ 99`: the two decimal digits. -/
def pad2c (n : ℕ) : List Char := [Nat.digitChar (n / 10), Nat.digitChar (n % 10)]

/-- Regex match `time.match` against `^(\d{1,2}):(\d{2})$` from `normalizeTime`:
a maximal run of 1–2 leading digits, a colon, exactly two digits, end of
string; returns the two capture groups. -/
def matchTimeRegex (s : String) : Option (List Char × List Char) :=
  if (s.data.takeWhile Char.isDigit).length = 0 ∨ 2 < (s.data.takeWhile Char.isDigit).length
  then none
  else
    match s.data.dropWhile Char.isDigit with
    | ':' :: c :: d :: [] =>
      if c.isDigit && d.isDigit then some (s.data.takeWhile Char.isDigit, [c, d]) else none
    | _ => none

/-- Function `normalizeTime` from `time.ts`: regex-validate, range-check hours and
minutes, zero-pad; any failure yields `"00:00"` (with a console warning,
elided).  The source's `hours < 0 || minutes < 0` checks are vacuous for
digit strings and are subsumed by `ℕ`. -/
def normalizeTime (s : String) : String :=
  match matchTimeRegex s with
  | none => "00:00"
  | some (hs, ms) =>
    if 23 < listNat hs || 59 < listNat ms then "00:00"
    else ⟨pad2c (listNat hs) ++ ':' :: pad2c (listNat ms)⟩

/-- Decimal value of a digit character. -/
def charVal (c : Char) : ℕ := c.toNat - 48

/-- Claim-side characterization of the spec's `WallClockTime` strings,
written from the spec's words (`H:MM` or `HH:MM`, digits only): the parsed
hour/minute pair if the string has one of those two shapes, else `none`.
Used only to state what `normalizeTime` accepts; ranges are checked by
`normalizeSpec`. -/
def clockSpec (s : String) : Option (ℕ × ℕ) :=
  match s.data with
  | [a, b, c, d] =>
    if a.isDigit && (b == ':' && (c.isDigit && d.isDigit))
    then some (charVal a, 10 * charVal c + charVal d) else none
  | [a, b, c, d, e] =>
    if a.isDigit && (b.isDigit && (c == ':' && (d.isDigit && e.isDigit)))
    then some (10 * charVal a + charVal b, 10 * charVal d + charVal e) else none
  | _ => none

/-- Claim-side restatement of the spec's normalization contract: a string
matching `H:MM`/`HH:MM` with hours 0–23 and minutes 0–59 is returned
zero-padded; anything else degrades to `"00:00"`. -/
def normalizeSpec (s : String) : String :=
  match clockSpec s with
  | some (h, m) =>
    if h ≤ 23 ∧ m ≤ 59 then ⟨pad2c h ++ ':' :: pad2c m⟩ else "00:00"
  | none => "00:00"

/-- Models `s.split(':').map(Number)` destructured as `[h, m]`, as used on time
strings by `isInSleepWindow`, `getNextBedtime` and `toDateWithTime`.  The
fallback `(0, 0)` is outside the modelled domain (every theorem either
supplies a well-formed string or a `normalizeTime` output). -/
def parseHM (s : String) : ℤ × ℤ :=
  match splitCols s.data with
  | [a, b] => ((listNat a : ℤ), (listNat b : ℤ))
  | _ => (0, 0)

/-- Minutes-since-midnight denoted by a time string (`h * 60 + m`). -/
def hmMinutes (s : String) : ℤ := (parseHM s).1 * 60 + (parseHM s).2

/-- A time string accepted by the `normalizeTime` regex whose hour and
minute values are in range — the well-formed `WallClockTime`s. -/
def validClock (s : String) : Bool :=
  match matchTimeRegex s with
  | some (hs, ms) => decide (listNat hs ≤ 23) && decide (listNat ms ≤ 59)
  | none => false

/-- Function `toDateWithTime` from `time.ts`: same local calendar day as `base`, with
the (normalized) time of day `hhmm`, seconds and milliseconds zeroed. -/
def toDateWithTime (base : ℤ) (hhmm : String) : ℤ :=
  dayIndex base * msPerDay + hmMinutes (normalizeTime hhmm) * msPerMin

/-- Function `isInSleepWindow` from `time.ts`. -/
def isInSleepWindow (now : ℤ) (s : UserSettings) : Bool :=
  if hmMinutes s.bedtime < hmMinutes s.wakeTime then
    decide (hmMinutes s.bedtime ≤ minutesOfDay now) &&
      decide (minutesOfDay now < hmMinutes s.wakeTime)
  else
    decide (hmMinutes s.bedtime ≤ minutesOfDay now) ||
      decide (minutesOfDay now < hmMinutes s.wakeTime)

/-- Function `getMostRecentWake` from `time.ts`: today's wake time if `now` is at or
past it, else yesterday's. -/
def getMostRecentWake (now : ℤ) (s : UserSettings) : ℤ :=
  if toDateWithTime now s.wakeTime ≤ now then toDateWithTime now s.wakeTime
  else toDateWithTime (now - msPerDay) s.wakeTime

/-- Function `getMostRecentBedtime` from `time.ts`: today's bedtime if `now` is at or
past it, else yesterday's. -/
def getMostRecentBedtime (now : ℤ) (s : UserSettings) : ℤ :=
  if toDateWithTime now s.bedtime ≤ now then toDateWithTime now s.bedtime
  else toDateWithTime (now - msPerDay) s.bedtime

/-- Function `getNextBedtime` from `time.ts`: compares raw clock minutes; today's
bedtime if still ahead, else tomorrow's. -/
def getNextBedtime (now : ℤ) (s : UserSettings) : ℤ :=
  if minutesOfDay now < hmMinutes s.bedtime then toDateWithTime now s.bedtime
  else toDateWithTime (now + msPerDay) s.bedtime

/-- Function `getDayWindow` from `time.ts`: most recent bedtime to next bedtime
(the console log of the span is elided). -/
def getDayWindow (now : ℤ) (s : UserSettings) : ℤ × ℤ :=
  (getMostRecentBedtime now s, getNextBedtime now s)

/-- Function `hoursBetween` from `time.ts`: `(end - start) / 3600000` as a number. -/
def hoursBetween (start e : ℤ) : ℚ := ((e - start : ℤ) : ℚ) / (msPerHour : ℚ)

/-- JavaScript `Math.round`: nearest integer, ties toward `+∞`. -/
def jsRound (x : ℚ) : ℤ := ⌊x + 1 / 2⌋

/-- Function `round2` from `time.ts`: `Math.round(n * 100) / 100`. -/
def round2 (x : ℚ) : ℚ := ((jsRound (x * 100) : ℤ) : ℚ) / 100

/-- Function `computeRemainingDollars` from `time.ts`: hours until the next bedtime,
clamped to `≥ 0`, rounded to 2 decimals. -/
def computeRemainingDollars (now : ℤ) (s : UserSettings) : ℚ :=
  round2 (max 0 (hoursBetween now (getNextBedtime now s)))

/-- Function `computeSpentDollars` from `time.ts`: hours since the most recent wake,
clamped to `≥ 0`, rounded to 2 decimals. -/
def computeSpentDollars (now : ℤ) (s : UserSettings) : ℚ :=
  round2 (max 0 (hoursBetween (getMostRecentWake now s) now))

/-- Function `durationHoursAcrossMidnight` from `time.ts`, on the instants the ISO
strings denote: add 24 h to `e` when `e < start`, then difference in hours. -/
def durationHoursAcrossMidnight (start e : ℤ) : ℚ :=
  hoursBetween start (if e < start then e + msPerDay else e)

/-- Function `overlapsDayWindow` from `time.ts`, on the instants the ISO strings
denote: midnight-wrap the end, then open-interval overlap test. -/
def overlapsDayWindow (start e dayStart dayEnd : ℤ) : Bool :=
  decide (start < dayEnd) && decide (dayStart < (if e < start then e + msPerDay else e))

/-- Function `resolveTimeReference` from `time.ts`: resolve a symbolic anchor against
the calendar day of `baseDay`. -/
def resolveTimeReference (ref : TimeReference) (s : UserSettings) (baseDay : ℤ) : ℤ :=
  match ref with
  | .bedtime => toDateWithTime baseDay s.bedtime
  | .wakeTime => toDateWithTime baseDay s.wakeTime
  | .offset m => toDateWithTime baseDay s.wakeTime + m * msPerMin

/-- The fields of an `Activity` record the time engine reads (`id`, `name`
and category are opaque strings/tags and are elided). -/
structure Activity where
  startTime : ℤ
  endTime : ℤ
  cost : ℚ

/-- The activity built by `ActivityModal.handleSave` from the picker's raw
`start`/`end`: the stored end is wrapped by 24 h when it precedes the start,
and `cost` is the memoized `Math.round(durationHoursAcrossMidnight(start,
end) * 100) / 100`. -/
def savedActivity (start e : ℤ) : Activity :=
  { startTime := start
    endTime := if e < start then e + msPerDay else e
    cost := round2 (durationHoursAcrossMidnight start e) }

/-- The activity built by `ActivityModal.handleQuickAction` from a preset's
two `TimeReference`s: both are resolved against the same `baseDay`, the end
is wrapped by 24 h when it precedes the start, and `cost` is
`durationHoursAcrossMidnight` of the resolved pair — with no rounding. -/
def quickActionActivity (startRef endRef : TimeReference) (s : UserSettings)
    (baseDay : ℤ) : Activity :=
  let startDate := resolveTimeReference startRef s baseDay
  let endDate0 := resolveTimeReference endRef s baseDay
  let endDate := if endDate0 < startDate then endDate0 + msPerDay else endDate0
  { startTime := startDate
    endTime := endDate
    cost := durationHoursAcrossMidnight startDate endDate }

/-- The settings of the spec's scenarios: bedtime 23:00, wake 07:00. -/
def s2307 : UserSettings := { bedtime := "23:00", wakeTime := "07:00" }

/-- Local day index of 2024-01-02 (days since 1970-01-01). -/
def day20240102 : ℤ := 19724

/-! ## Arithmetic groundwork: day indices and minutes of day -/

theorem dayIndex_mul_le (t : ℤ) : dayIndex t * msPerDay ≤ t := by
  have h : dayIndex t = t / msPerDay := Int.fdiv_eq_ediv t (by norm_num [msPerDay])
  have h2 := Int.ediv_add_emod t msPerDay
  have h3 := Int.emod_nonneg t (b := msPerDay) (by norm_num [msPerDay])
  rw [h]; linarith

theorem lt_dayIndex_succ (t : ℤ) : t < (dayIndex t + 1) * msPerDay := by
  have h : dayIndex t = t / msPerDay := Int.fdiv_eq_ediv t (by norm_num [msPerDay])
  have h2 := Int.ediv_add_emod t msPerDay
  have h3 := Int.emod_lt_of_pos t (b := msPerDay) (by norm_num [msPerDay])
  rw [h]; linarith

theorem minutesOfDay_eq (t : ℤ) :
    minutesOfDay t = (t % msPerDay) / msPerMin := by
  have h0 : msOfDay t = t % msPerDay := rfl
  unfold minutesOfDay
  rw [h0, Int.fdiv_eq_ediv _ (by norm_num [msPerMin])]

theorem minutesOfDay_nonneg (t : ℤ) : 0 ≤ minutesOfDay t := by
  rw [minutesOfDay_eq]
  exact Int.ediv_nonneg (Int.emod_nonneg t (by norm_num [msPerDay])) (by norm_num [msPerMin])

theorem minutesOfDay_lt (t : ℤ) : minutesOfDay t < 1440 := by
  rw [minutesOfDay_eq]
  simp only [msPerDay, msPerMin]
  omega

theorem minutesOfDay_mul_le (t : ℤ) :
    dayIndex t * msPerDay + minutesOfDay t * msPerMin ≤ t := by
  have h : dayIndex t = t / msPerDay := Int.fdiv_eq_ediv t (by norm_num [msPerDay])
  rw [h, minutesOfDay_eq]
  simp only [msPerDay, msPerMin]
  omega

theorem lt_minutesOfDay_succ (t : ℤ) :
    t < dayIndex t * msPerDay + (minutesOfDay t + 1) * msPerMin := by
  have h : dayIndex t = t / msPerDay := Int.fdiv_eq_ediv t (by norm_num [msPerDay])
  rw [h, minutesOfDay_eq]
  simp only [msPerDay, msPerMin]
  omega

theorem dayIndex_add_day (t : ℤ) : dayIndex (t + msPerDay) = dayIndex t + 1 := by
  have h : dayIndex (t + msPerDay) = (t + msPerDay) / msPerDay :=
    Int.fdiv_eq_ediv _ (by norm_num [msPerDay])
  have h' : dayIndex t = t / msPerDay := Int.fdiv_eq_ediv t (by norm_num [msPerDay])
  rw [h, h']
  simp only [msPerDay]
  omega

/-! ## Parsing groundwork: digits, `splitCols`, the regex and `parseHM` -/

theorem colon_not_digit : (':').isDigit = false := by decide

theorem isDigit_ne_colon {c : Char} (h : c.isDigit = true) : c ≠ ':' := by
  intro he
  subst he
  exact absurd h (by decide)

theorem digitChar_toNat {k : ℕ} (h : k < 10) : (Nat.digitChar k).toNat = 48 + k := by
  interval_cases k <;> rfl

theorem digitChar_ne_colon {k : ℕ} (h : k < 10) : Nat.digitChar k ≠ ':' := by
  interval_cases k <;> decide

theorem listNat_single (a : Char) : listNat [a] = a.toNat - 48 := by
  simp [listNat, List.foldl]

theorem listNat_pair (a b : Char) : listNat [a, b] = (a.toNat - 48) * 10 + (b.toNat - 48) := by
  simp [listNat, List.foldl]

theorem listNat_pad2c {n : ℕ} (h : n ≤ 99) : listNat (pad2c n) = n := by
  have h1 : n / 10 < 10 := by omega
  have h2 : n % 10 < 10 := by omega
  rw [pad2c, listNat_pair, digitChar_toNat h1, digitChar_toNat h2]
  omega

theorem splitCols_shape1 {a c d : Char} (ha : a ≠ ':') (hc : c ≠ ':') (hd : d ≠ ':') :
    splitCols [a, ':', c, d] = [[a], [c, d]] := by
  simp [splitCols, ha, hc, hd]

theorem splitCols_shape2 {a b c d : Char} (ha : a ≠ ':') (hb : b ≠ ':')
    (hc : c ≠ ':') (hd : d ≠ ':') :
    splitCols [a, b, ':', c, d] = [[a, b], [c, d]] := by
  simp [splitCols, ha, hb, hc, hd]

theorem matchTimeRegex_eq_some {s : String} {hs ms : List Char}
    (h : matchTimeRegex s = some (hs, ms)) :
    (hs.length = 1 ∨ hs.length = 2) ∧ (∀ c ∈ hs, c.isDigit = true) ∧
      ∃ c d, ms = [c, d] ∧ c.isDigit = true ∧ d.isDigit = true ∧
        s.data = hs ++ ':' :: [c, d] := by
  unfold matchTimeRegex at h
  split at h
  · exact absurd h (by simp)
  · next hlen =>
    push_neg at hlen
    split at h
    · next c d heq =>
      split at h
      · next hcd =>
        simp only [Option.some.injEq, Prod.mk.injEq] at h
        obtain ⟨h1, h2⟩ := h
        subst h1
        subst h2
        simp only [Bool.and_eq_true] at hcd
        refine ⟨by omega, fun x hx => List.mem_takeWhile_imp hx, c, d, rfl, hcd.1, hcd.2, ?_⟩
        conv_lhs => rw [← List.takeWhile_append_dropWhile (p := Char.isDigit) (l := s.data)]
        rw [heq]
      · exact absurd h (by simp)
    · exact absurd h (by simp)

theorem matchTimeRegex_shape1 {s : String} {a c d : Char} (hdata : s.data = [a, ':', c, d])
    (ha : a.isDigit = true) (hc : c.isDigit = true) (hd : d.isDigit = true) :
    matchTimeRegex s = some ([a], [c, d]) := by
  unfold matchTimeRegex
  rw [hdata]
  simp [List.takeWhile_cons, List.dropWhile_cons, ha, hc, hd, colon_not_digit]

theorem matchTimeRegex_shape2 {s : String} {a b c d : Char}
    (hdata : s.data = [a, b, ':', c, d]) (ha : a.isDigit = true) (hb : b.isDigit = true)
    (hc : c.isDigit = true) (hd : d.isDigit = true) :
    matchTimeRegex s = some ([a, b], [c, d]) := by
  unfold matchTimeRegex
  rw [hdata]
  simp [List.takeWhile_cons, List.dropWhile_cons, ha, hb, hc, hd, colon_not_digit]

theorem dayIndex_sub_day (t : ℤ) : dayIndex (t - msPerDay) = dayIndex t - 1 := by
  have h : dayIndex (t - msPerDay) = (t - msPerDay) / msPerDay :=
    Int.fdiv_eq_ediv _ (by norm_num [msPerDay])
  have h' : dayIndex t = t / msPerDay := Int.fdiv_eq_ediv t (by norm_num [msPerDay])
  rw [h, h']
  simp only [msPerDay]
  omega

theorem valid_parse {s : String} (hv : validClock s = true) :
    ∃ h m : ℕ, h ≤ 23 ∧ m ≤ 59 ∧
      parseHM s = ((h : ℤ), (m : ℤ)) ∧
      parseHM (normalizeTime s) = ((h : ℤ), (m : ℤ)) := by
  unfold validClock at hv
  split at hv
  · next hs ms heq =>
    simp only [Bool.and_eq_true, decide_eq_true_eq] at hv
    obtain ⟨h23, h59⟩ := hv
    obtain ⟨hlen, hdig, c, d, hms, hc, hd, hdata⟩ := matchTimeRegex_eq_some heq
    subst hms
    refine ⟨listNat hs, listNat [c, d], h23, h59, ?_, ?_⟩
    · rcases hlen with h1 | h2
      · obtain ⟨a, ha⟩ := List.length_eq_one.mp h1
        subst ha
        have had : a.isDigit = true := hdig a (by simp)
        unfold parseHM
        rw [hdata]
        simp only [List.cons_append, List.nil_append]
        rw [splitCols_shape1 (isDigit_ne_colon had) (isDigit_ne_colon hc) (isDigit_ne_colon hd)]
      · obtain ⟨a, b, hab⟩ := List.length_eq_two.mp h2
        subst hab
        have had : a.isDigit = true := hdig a (by simp)
        have hbd : b.isDigit = true := hdig b (by simp)
        unfold parseHM
        rw [hdata]
        simp only [List.cons_append, List.nil_append]
        rw [splitCols_shape2 (isDigit_ne_colon had) (isDigit_ne_colon hbd)
          (isDigit_ne_colon hc) (isDigit_ne_colon hd)]
    · have hcond : (decide (23 < listNat hs) || decide (59 < listNat [c, d])) = false := by
        simp only [Bool.or_eq_false_iff, decide_eq_false_iff_not, not_lt]
        exact ⟨h23, h59⟩
      have hnorm : normalizeTime s = ⟨pad2c (listNat hs) ++ ':' :: pad2c (listNat [c, d])⟩ := by
        unfold normalizeTime
        rw [heq]
        simp only [hcond, Bool.false_eq_true, if_false]
      rw [hnorm]
      have hh10 : listNat hs / 10 < 10 := by omega
      have hh10' : listNat hs % 10 < 10 := by omega
      have hm10 : listNat [c, d] / 10 < 10 := by omega
      have hm10' : listNat [c, d] % 10 < 10 := by omega
      have hsp : splitCols (String.mk
          (pad2c (listNat hs) ++ ':' :: pad2c (listNat [c, d]))).data =
          [pad2c (listNat hs), pad2c (listNat [c, d])] := by
        show splitCols (pad2c (listNat hs) ++ ':' :: pad2c (listNat [c, d])) = _
        simp only [pad2c, List.cons_append, List.nil_append]
        exact splitCols_shape2 (digitChar_ne_colon hh10) (digitChar_ne_colon hh10')
          (digitChar_ne_colon hm10) (digitChar_ne_colon hm10')
      simp only [parseHM, hsp]
      rw [listNat_pad2c (show listNat hs ≤ 99 by omega),
        listNat_pad2c (show listNat [c, d] ≤ 99 by omega)]
  · exact absurd hv (by simp)

/-- For a well-formed clock string, the raw parse used by `isInSleepWindow` /
`getNextBedtime` and the normalize-then-parse used by `toDateWithTime` agree,
and the minutes-since-midnight value is in `[0, 1439]`. -/
theorem hmMinutes_valid {s : String} (hv : validClock s = true) :
    ∃ B : ℤ, 0 ≤ B ∧ B ≤ 1439 ∧ hmMinutes s = B ∧ hmMinutes (normalizeTime s) = B := by
  obtain ⟨h, m, h23, h59, hp, hpn⟩ := valid_parse hv
  refine ⟨(h : ℤ) * 60 + (m : ℤ), by positivity, ?_, ?_, ?_⟩
  · have : (h : ℤ) ≤ 23 := by exact_mod_cast h23
    have : (m : ℤ) ≤ 59 := by exact_mod_cast h59
    omega
  · rw [hmMinutes, hp]
  · rw [hmMinutes, hpn]

/-! ## Claims -/

/-- C1: for every instant `now` and every settings snapshot with a
well-formed bedtime, the day window `getDayWindow now s` satisfies
`start ≤ now < end`, including the boundary case `now = start`
(`now` exactly at bedtime). -/
theorem getDayWindow_contains_now (now : ℤ) (s : UserSettings)
    (hb : validClock s.bedtime = true) :
    (getDayWindow now s).1 ≤ now ∧ now < (getDayWindow now s).2 := by
  obtain ⟨B, hB0, hB1439, hraw, hnorm⟩ := hmMinutes_valid hb
  have ht : ∀ b : ℤ, toDateWithTime b s.bedtime = dayIndex b * msPerDay + B * msPerMin := by
    intro b
    rw [toDateWithTime, hnorm]
  have h1 := dayIndex_mul_le now
  have h2 := lt_dayIndex_succ now
  have h3 := minutesOfDay_mul_le now
  have h4 := lt_minutesOfDay_succ now
  have h5 := minutesOfDay_nonneg now
  have h6 := minutesOfDay_lt now
  constructor
  · show getMostRecentBedtime now s ≤ now
    simp only [getMostRecentBedtime, ht, dayIndex_sub_day]
    split_ifs with h
    · exact h
    · push_neg at h
      simp only [msPerDay, msPerMin] at *
      omega
  · show now < getNextBedtime now s
    simp only [getNextBedtime, ht, dayIndex_add_day, hraw]
    split_ifs with h
    · simp only [msPerDay, msPerMin] at *
      omega
    · push_neg at h
      simp only [msPerDay, msPerMin] at *
      omega

/-- Witness for C1 at the spec's scenario: bedtime 23:00, wake 07:00,
`now` = 2024-01-02T09:30. -/
theorem getDayWindow_contains_now_witness :
    (getDayWindow (mkInstant day20240102 9 30) s2307).1 ≤ mkInstant day20240102 9 30 ∧
      mkInstant day20240102 9 30 < (getDayWindow (mkInstant day20240102 9 30) s2307).2 :=
  getDayWindow_contains_now (mkInstant day20240102 9 30) s2307 (by decide)

/-- C10: for every instant `now` and settings with a well-formed bedtime,
the day window spans exactly 24 hours. -/
theorem getDayWindow_span (now : ℤ) (s : UserSettings)
    (hb : validClock s.bedtime = true) :
    (getDayWindow now s).2 - (getDayWindow now s).1 = msPerDay ∧
      hoursBetween (getDayWindow now s).1 (getDayWindow now s).2 = 24 := by
  obtain ⟨B, hB0, hB1439, hraw, hnorm⟩ := hmMinutes_valid hb
  have ht : ∀ b : ℤ, toDateWithTime b s.bedtime = dayIndex b * msPerDay + B * msPerMin := by
    intro b
    rw [toDateWithTime, hnorm]
  have h1 := dayIndex_mul_le now
  have h2 := lt_dayIndex_succ now
  have h3 := minutesOfDay_mul_le now
  have h4 := lt_minutesOfDay_succ now
  have h5 := minutesOfDay_nonneg now
  have h6 := minutesOfDay_lt now
  have hspan : (getDayWindow now s).2 - (getDayWindow now s).1 = msPerDay := by
    show getNextBedtime now s - getMostRecentBedtime now s = msPerDay
    simp only [getNextBedtime, getMostRecentBedtime, ht, hraw, dayIndex_add_day,
      dayIndex_sub_day]
    split_ifs with hn hr hr
    · exfalso
      simp only [msPerDay, msPerMin] at *
      omega
    · simp only [msPerDay, msPerMin] at *
      omega
    · simp only [msPerDay, msPerMin] at *
      omega
    · exfalso
      push_neg at hn hr
      simp only [msPerDay, msPerMin] at *
      omega
  refine ⟨hspan, ?_⟩
  rw [hoursBetween, hspan]
  norm_num [msPerDay, msPerHour]

/-- Witness for C10 at bedtime 23:00, `now` = 2024-01-02T02:00. -/
theorem getDayWindow_span_witness :
    (getDayWindow (mkInstant day20240102 2 0) s2307).2 -
        (getDayWindow (mkInstant day20240102 2 0) s2307).1 = msPerDay ∧
      hoursBetween (getDayWindow (mkInstant day20240102 2 0) s2307).1
        (getDayWindow (mkInstant day20240102 2 0) s2307).2 = 24 :=
  getDayWindow_span (mkInstant day20240102 2 0) s2307 (by decide)

theorem round2_nonneg {x : ℚ} (h : 0 ≤ x) : 0 ≤ round2 x := by
  rw [round2, jsRound]
  have h1 : (0 : ℤ) ≤ ⌊x * 100 + 1 / 2⌋ := Int.floor_nonneg.mpr (by positivity)
  have h2 : (0 : ℚ) ≤ (⌊x * 100 + 1 / 2⌋ : ℚ) := by exact_mod_cast h1
  positivity

/-- C2: the remaining budget `computeRemainingDollars` is the hours between `now` and the next
bedtime, clamped to `≥ 0` and rounded to 2 decimals; at bedtime 23:00 /
wake 07:00 and `now` = 2024-01-02T09:30 it equals 13.50. -/
theorem computeRemainingDollars_spec :
    computeRemainingDollars (mkInstant day20240102 9 30) s2307 = 27 / 2 ∧
      ∀ (now : ℤ) (s : UserSettings),
        computeRemainingDollars now s =
          round2 (max 0 (hoursBetween now (getNextBedtime now s))) ∧
        0 ≤ computeRemainingDollars now s := by
  refine ⟨?_, fun now s => ⟨rfl, round2_nonneg (le_max_left 0 _)⟩⟩
  have hnb : getNextBedtime (mkInstant day20240102 9 30) s2307 =
      mkInstant day20240102 23 0 := by decide
  rw [computeRemainingDollars, hnb]
  have h1 : hoursBetween (mkInstant day20240102 9 30) (mkInstant day20240102 23 0) =
      27 / 2 := by
    rw [hoursBetween]
    norm_num [mkInstant, msPerDay, msPerMin, msPerHour, day20240102]
  rw [h1]
  rw [max_eq_right (by norm_num : (0 : ℚ) ≤ 27 / 2), round2, jsRound]
  norm_num

theorem spent_at_20240102T0200 :
    computeSpentDollars (mkInstant day20240102 2 0) s2307 = 19 := by
  have hw : getMostRecentWake (mkInstant day20240102 2 0) s2307 =
      mkInstant (day20240102 - 1) 7 0 := by decide
  rw [computeSpentDollars, hw]
  have h1 : hoursBetween (mkInstant (day20240102 - 1) 7 0) (mkInstant day20240102 2 0) =
      19 := by
    rw [hoursBetween]
    norm_num [mkInstant, msPerDay, msPerMin, msPerHour, day20240102]
  rw [h1]
  rw [max_eq_right (by norm_num : (0 : ℚ) ≤ 19), round2, jsRound]
  norm_num

/-- C3 counterexample: with bedtime 23:00 / wake 07:00 at
`now` = 2024-01-02T02:00, `computeSpentDollars` returns 19.00 — not 0 as the
claim states. -/
theorem computeSpentDollars_counterexample :
    computeSpentDollars (mkInstant day20240102 2 0) s2307 = 19 ∧ (19 : ℚ) ≠ 0 :=
  ⟨spent_at_20240102T0200, by norm_num⟩

/-- C3 amended: at 2024-01-02T02:00 the most recent wake is
2024-01-01T07:00 (the code looks *backwards* to yesterday's wake, not
forwards), so the spent amount is the 19 hours elapsed since then. -/
theorem computeSpentDollars_amended :
    getMostRecentWake (mkInstant day20240102 2 0) s2307 = mkInstant (day20240102 - 1) 7 0 ∧
      computeSpentDollars (mkInstant day20240102 2 0) s2307 = 19 :=
  ⟨by decide, spent_at_20240102T0200⟩

/-- C4 counterexample: for a gap of more than 24 hours the single
midnight-wrap correction is not enough — with `end` two days before
`start`, `durationHoursAcrossMidnight` returns −24. -/
theorem durationHours_counterexample :
    durationHoursAcrossMidnight 0 (-(2 * msPerDay)) = -24 ∧
      ¬(0 ≤ durationHoursAcrossMidnight 0 (-(2 * msPerDay))) := by
  have h : durationHoursAcrossMidnight 0 (-(2 * msPerDay)) = -24 := by
    rw [durationHoursAcrossMidnight, if_pos (by norm_num [msPerDay] : (-(2 * msPerDay) : ℤ) < 0),
      hoursBetween]
    norm_num [msPerDay, msPerHour]
  refine ⟨h, ?_⟩
  rw [h]
  norm_num

/-- C4 amended: the duration `durationHoursAcrossMidnight start end` is nonnegative whenever the raw
end is no more than 24 hours before the start (`start - end ≤ 24 h`) — the
sole correction applied is adding 24 hours to `end` when `end < start`, so
spans of more than a day come out negative. -/
theorem durationHours_nonneg (a b : ℤ) (h : a - b ≤ msPerDay) :
    0 ≤ durationHoursAcrossMidnight a b := by
  rw [durationHoursAcrossMidnight, hoursBetween]
  split_ifs with hb
  · have h2 : (0 : ℤ) ≤ b + msPerDay - a := by
      simp only [msPerDay] at *
      omega
    exact div_nonneg (by exact_mod_cast h2) (by norm_num [msPerHour])
  · push_neg at hb
    have h2 : (0 : ℤ) ≤ b - a := by omega
    exact div_nonneg (by exact_mod_cast h2) (by norm_num [msPerHour])

/-- Witness for the amended C4: a 1.75-hour midnight-crossing activity
(22:30 to 00:15 next day, the spec's scenario) has nonnegative duration. -/
theorem durationHours_nonneg_witness :
    0 ≤ durationHoursAcrossMidnight (mkInstant day20240102 22 30) (mkInstant day20240102 0 15) :=
  durationHours_nonneg (mkInstant day20240102 22 30) (mkInstant day20240102 0 15) (by decide)

/-- C9 counterexample: the rounding `round2` is JavaScript `Math.round` at the hundredths
place, which rounds ties toward `+∞`, not away from zero: at `x = −0.125`
the code yields −0.12, while half-away-from-zero would give −0.13. -/
theorem round2_counterexample :
    round2 (-(1 / 8)) = -(3 / 25) ∧ (-(3 / 25) : ℚ) ≠ -(13 / 100) := by
  constructor
  · rw [round2, jsRound]
    norm_num
  · norm_num

/-- C9 amended: the rounding `round2 x = round(x * 100) / 100` rounds to the hundredths
place with ties toward `+∞` (half-up): the result is an integer multiple of
1/100 lying within a half-tick of `x`, with the upper boundary attained at
ties — away from zero for positive `x`, toward zero for negative `x`. -/
theorem round2_half_up (x : ℚ) :
    (∃ k : ℤ, round2 x = (k : ℚ) / 100) ∧
      x - 1 / 200 < round2 x ∧ round2 x ≤ x + 1 / 200 := by
  refine ⟨⟨jsRound (x * 100), rfl⟩, ?_, ?_⟩
  · have h := Int.lt_floor_add_one (x * 100 + 1 / 2)
    rw [round2, jsRound]
    linarith
  · have h := Int.floor_le (x * 100 + 1 / 2)
    rw [round2, jsRound]
    linarith

/-- C5 counterexample: a quick-action preset from wake time to wake time
plus 50 minutes stores `cost = 5/6` hours exactly, while the claimed
invariant (duration rounded to 2 decimal places) would require 0.83. -/
theorem activityCost_counterexample :
    (quickActionActivity .wakeTime (.offset 50) s2307 0).cost = 5 / 6 ∧
      round2 (durationHoursAcrossMidnight
          (quickActionActivity .wakeTime (.offset 50) s2307 0).startTime
          (quickActionActivity .wakeTime (.offset 50) s2307 0).endTime) = 83 / 100 ∧
      (5 / 6 : ℚ) ≠ 83 / 100 := by
  have h1 : resolveTimeReference .wakeTime s2307 0 = 25200000 := by decide
  have h2 : resolveTimeReference (.offset 50) s2307 0 = 28200000 := by decide
  have hlt : ¬ (28200000 : ℤ) < 25200000 := by decide
  have hact : quickActionActivity .wakeTime (.offset 50) s2307 0 =
      { startTime := 25200000, endTime := 28200000,
        cost := durationHoursAcrossMidnight 25200000 28200000 } := by
    simp only [quickActionActivity, h1, h2, if_neg hlt]
  have hdur : durationHoursAcrossMidnight (25200000 : ℤ) 28200000 = 5 / 6 := by
    rw [durationHoursAcrossMidnight, if_neg hlt, hoursBetween]
    norm_num [msPerHour]
  rw [hact]
  refine ⟨hdur, ?_, by norm_num⟩
  show round2 (durationHoursAcrossMidnight (25200000 : ℤ) 28200000) = 83 / 100
  rw [hdur, round2, jsRound]
  norm_num

/-- C5 amended: activities saved from the manual editor do satisfy the
invariant — their stored `cost` is the midnight-wrap duration of the stored
`[startTime, endTime)` rounded to 2 decimals (for picker times less than
24 h apart) — but quick-action activities store the *unrounded* duration. -/
theorem activityCost_invariant :
    (∀ start e : ℤ, start - e ≤ msPerDay →
      (savedActivity start e).cost =
        round2 (durationHoursAcrossMidnight (savedActivity start e).startTime
          (savedActivity start e).endTime)) ∧
    (∀ (r1 r2 : TimeReference) (s : UserSettings) (base : ℤ),
      (quickActionActivity r1 r2 s base).cost =
        durationHoursAcrossMidnight (quickActionActivity r1 r2 s base).startTime
          (quickActionActivity r1 r2 s base).endTime) := by
  refine ⟨fun start e h => ?_, fun r1 r2 s base => rfl⟩
  show round2 (durationHoursAcrossMidnight start e) =
    round2 (durationHoursAcrossMidnight start (if e < start then e + msPerDay else e))
  by_cases he : e < start
  · rw [if_pos he]
    have hno : ¬ e + msPerDay < start := by
      simp only [msPerDay] at *
      omega
    rw [durationHoursAcrossMidnight, durationHoursAcrossMidnight, if_pos he, if_neg hno]
  · rw [if_neg he]

/-- Witness for the amended C5: the spec's midnight-crossing scenario
(22:30 to 00:15) through the manual editor. -/
theorem activityCost_invariant_witness :
    (savedActivity (mkInstant day20240102 22 30) (mkInstant day20240102 0 15)).cost =
      round2 (durationHoursAcrossMidnight
        (savedActivity (mkInstant day20240102 22 30) (mkInstant day20240102 0 15)).startTime
        (savedActivity (mkInstant day20240102 22 30) (mkInstant day20240102 0 15)).endTime) :=
  activityCost_invariant.1 (mkInstant day20240102 22 30) (mkInstant day20240102 0 15)
    (by decide)

/-- C6: the overlap test `overlapsDayWindow` wraps the end by 24 h when it precedes the
start and then performs the open-interval test
`start < windowEnd ∧ windowStart < correctedEnd`; consequently an activity
ending exactly at `windowStart`, or starting exactly at `windowEnd`, does
not overlap. -/
theorem overlapsDayWindow_spec :
    (∀ a b ws we : ℤ,
      (overlapsDayWindow a b ws we = true ↔
        a < we ∧ ws < (if b < a then b + msPerDay else b))) ∧
    (∀ a ws we : ℤ, a ≤ ws → overlapsDayWindow a ws ws we = false) ∧
    (∀ b ws we : ℤ, overlapsDayWindow we b ws we = false) := by
  refine ⟨fun a b ws we => ?_, fun a ws we h => ?_, fun b ws we => ?_⟩
  · rw [overlapsDayWindow]
    simp only [Bool.and_eq_true, decide_eq_true_eq]
  · rw [overlapsDayWindow, if_neg (not_lt.mpr h)]
    simp [lt_irrefl]
  · rw [overlapsDayWindow]
    simp [lt_irrefl]

/-- Witness for C6 boundary: the window `[2024-01-01T23:00, 2024-01-02T23:00)`
does not claim an activity that ends exactly at its start. -/
theorem overlapsDayWindow_spec_witness :
    overlapsDayWindow (mkInstant (day20240102 - 1) 21 0) (mkInstant (day20240102 - 1) 23 0)
      (mkInstant (day20240102 - 1) 23 0) (mkInstant day20240102 23 0) = false :=
  overlapsDayWindow_spec.2.1 (mkInstant (day20240102 - 1) 21 0)
    (mkInstant (day20240102 - 1) 23 0) (mkInstant day20240102 23 0) (by decide)

/-- C7 counterexample: with the degenerate (but accepted) settings
bedtime = wake time = 07:00, at `now` exactly the wake time the code reports
*asleep* — the claim's boundary "`now == wakeTime` yields awake" fails. -/
theorem isInSleepWindow_counterexample :
    isInSleepWindow (mkInstant day20240102 7 0)
        { bedtime := "07:00", wakeTime := "07:00" } = true ∧
      minutesOfDay (mkInstant day20240102 7 0) =
        hmMinutes ({ bedtime := "07:00", wakeTime := "07:00" } : UserSettings).wakeTime := by
  constructor <;> decide

/-- C7 amended: the sleep test `isInSleepWindow` is exactly the claimed two-case
minutes-of-day test, `now` at bedtime is always asleep, and `now` at wake
time is awake *provided bedtime and wake time differ*. -/
theorem isInSleepWindow_characterization (now : ℤ) (s : UserSettings) :
    (hmMinutes s.bedtime < hmMinutes s.wakeTime →
      (isInSleepWindow now s = true ↔
        hmMinutes s.bedtime ≤ minutesOfDay now ∧
          minutesOfDay now < hmMinutes s.wakeTime)) ∧
    (hmMinutes s.wakeTime ≤ hmMinutes s.bedtime →
      (isInSleepWindow now s = true ↔
        hmMinutes s.bedtime ≤ minutesOfDay now ∨
          minutesOfDay now < hmMinutes s.wakeTime)) ∧
    (minutesOfDay now = hmMinutes s.bedtime → isInSleepWindow now s = true) ∧
    (hmMinutes s.bedtime ≠ hmMinutes s.wakeTime →
      minutesOfDay now = hmMinutes s.wakeTime → isInSleepWindow now s = false) := by
  refine ⟨fun hlt => ?_, fun hge => ?_, fun hbed => ?_, fun hne hwake => ?_⟩
  · rw [isInSleepWindow, if_pos hlt]
    simp only [Bool.and_eq_true, decide_eq_true_eq]
  · rcases lt_or_eq_of_le hge with hlt | heq
    · rw [isInSleepWindow, if_neg (not_lt.mpr (le_of_lt hlt))]
      simp only [Bool.or_eq_true, decide_eq_true_eq]
    · rw [isInSleepWindow, if_neg (by omega)]
      simp only [Bool.or_eq_true, decide_eq_true_eq]
  · rw [isInSleepWindow]
    split_ifs with hlt
    · simp only [Bool.and_eq_true, decide_eq_true_eq]
      omega
    · simp only [Bool.or_eq_true, decide_eq_true_eq]
      omega
  · rw [isInSleepWindow]
    split_ifs with hlt
    · rw [Bool.eq_false_iff]
      intro hcontra
      simp only [Bool.and_eq_true, decide_eq_true_eq] at hcontra
      omega
    · rw [Bool.eq_false_iff]
      intro hcontra
      simp only [Bool.or_eq_true, decide_eq_true_eq] at hcontra
      omega

/-- Witness for the amended C7: the normal 23:00/07:00 configuration,
asleep at 02:00 and awake exactly at the 07:00 wake time. -/
theorem isInSleepWindow_characterization_witness :
    (isInSleepWindow (mkInstant day20240102 2 0) s2307 = true ↔
      hmMinutes s2307.bedtime ≤ minutesOfDay (mkInstant day20240102 2 0) ∨
        minutesOfDay (mkInstant day20240102 2 0) < hmMinutes s2307.wakeTime) ∧
    isInSleepWindow (mkInstant day20240102 7 0) s2307 = false :=
  ⟨(isInSleepWindow_characterization (mkInstant day20240102 2 0) s2307).2.1 (by decide),
    (isInSleepWindow_characterization (mkInstant day20240102 7 0) s2307).2.2.2
      (by decide) (by decide)⟩

theorem matchTimeRegex_of_clockSpec {s : String} {v : ℕ × ℕ} (h : clockSpec s = some v) :
    ∃ hs ms, matchTimeRegex s = some (hs, ms) ∧ listNat hs = v.1 ∧ listNat ms = v.2 := by
  unfold clockSpec at h
  rcases hds : s.data with _ | ⟨a, _ | ⟨b, _ | ⟨c, _ | ⟨d, _ | ⟨e, _ | ⟨f, rest⟩⟩⟩⟩⟩⟩ <;>
    rw [hds] at h
  · simp at h
  · simp at h
  · simp at h
  · simp at h
  · -- length 4: the `H:MM` shape
    have h' : (if (a.isDigit && (b == ':' && (c.isDigit && d.isDigit))) = true
        then some (charVal a, 10 * charVal c + charVal d) else none) = some v := h
    clear h
    rename' h' => h
    split_ifs at h with hcond
    · simp only [Bool.and_eq_true, beq_iff_eq] at hcond
      obtain ⟨ha, hb, hc, hd⟩ := hcond
      subst hb
      simp only [Option.some.injEq] at h
      refine ⟨[a], [c, d], matchTimeRegex_shape1 hds ha hc hd, ?_, ?_⟩
      · rw [listNat_single, ← h]
        rfl
      · rw [listNat_pair, ← h]
        show (c.toNat - 48) * 10 + (d.toNat - 48) = 10 * charVal c + charVal d
        unfold charVal
        ring
  · -- length 5: the `HH:MM` shape
    have h' : (if (a.isDigit && (b.isDigit && (c == ':' && (d.isDigit && e.isDigit)))) = true
        then some (10 * charVal a + charVal b, 10 * charVal d + charVal e) else none) =
        some v := h
    clear h
    rename' h' => h
    split_ifs at h with hcond
    · simp only [Bool.and_eq_true, beq_iff_eq] at hcond
      obtain ⟨ha, hb, hc, hd, he⟩ := hcond
      subst hc
      simp only [Option.some.injEq] at h
      refine ⟨[a, b], [d, e], matchTimeRegex_shape2 hds ha hb hd he, ?_, ?_⟩
      · rw [listNat_pair, ← h]
        show (a.toNat - 48) * 10 + (b.toNat - 48) = 10 * charVal a + charVal b
        unfold charVal
        ring
      · rw [listNat_pair, ← h]
        show (d.toNat - 48) * 10 + (e.toNat - 48) = 10 * charVal d + charVal e
        unfold charVal
        ring
  · simp at h

/-- C8: the normalizer `normalizeTime` is total and meets the spec's contract for every
input string: a string of shape `H:MM`/`HH:MM` (digits only) with hours
0–23 and minutes 0–59 is returned zero-padded as `HH:MM`, and any parse
failure or out-of-range value degrades to `"00:00"` (the diagnostic is a
console side effect, elided). -/
theorem normalizeTime_meets_spec (s : String) : normalizeTime s = normalizeSpec s := by
  cases hm : matchTimeRegex s with
  | none =>
    have hN : normalizeTime s = "00:00" := by
      unfold normalizeTime
      rw [hm]
    have hC : clockSpec s = none := by
      cases hc : clockSpec s with
      | none => rfl
      | some v =>
        obtain ⟨hs, ms, hm', _, _⟩ := matchTimeRegex_of_clockSpec hc
        rw [hm] at hm'
        exact absurd hm' (by simp)
    rw [hN]
    unfold normalizeSpec
    rw [hC]
  | some p =>
    obtain ⟨hs, ms⟩ := p
    obtain ⟨hlen, hdig, c, d, hms, hcd, hdd, hdata⟩ := matchTimeRegex_eq_some hm
    subst hms
    have hN : normalizeTime s =
        if (decide (23 < listNat hs) || decide (59 < listNat [c, d])) = true then "00:00"
        else ⟨pad2c (listNat hs) ++ ':' :: pad2c (listNat [c, d])⟩ := by
      unfold normalizeTime
      rw [hm]
    rcases hlen with h1 | h2
    · obtain ⟨a, ha⟩ := List.length_eq_one.mp h1
      subst ha
      have had := hdig a (by simp)
      have hdata' : s.data = [a, ':', c, d] := by simpa using hdata
      have hC : clockSpec s = some (charVal a, 10 * charVal c + charVal d) := by
        unfold clockSpec
        rw [hdata']
        simp [had, hcd, hdd]
      have e1 : listNat [a] = charVal a := by
        rw [listNat_single]
        rfl
      have e2 : listNat [c, d] = 10 * charVal c + charVal d := by
        rw [listNat_pair]
        unfold charVal
        ring
      rw [hN, e1, e2]
      simp only [normalizeSpec, hC]
      by_cases hcnd : charVal a ≤ 23 ∧ 10 * charVal c + charVal d ≤ 59
      · rw [if_pos hcnd]
        have hfalse : (decide (23 < charVal a) ||
            decide (59 < 10 * charVal c + charVal d)) = false := by
          simp only [Bool.or_eq_false_iff, decide_eq_false_iff_not, not_lt]
          exact hcnd
        rw [hfalse]
        simp
      · rw [if_neg hcnd]
        have htrue : (decide (23 < charVal a) ||
            decide (59 < 10 * charVal c + charVal d)) = true := by
          rw [Bool.or_eq_true]
          simp only [decide_eq_true_eq]
          omega
        rw [htrue]
        simp
    · obtain ⟨a, b, hab⟩ := List.length_eq_two.mp h2
      subst hab
      have had := hdig a (by simp)
      have hbd := hdig b (by simp)
      have hdata' : s.data = [a, b, ':', c, d] := by simpa using hdata
      have hC : clockSpec s = some (10 * charVal a + charVal b,
          10 * charVal c + charVal d) := by
        unfold clockSpec
        rw [hdata']
        simp [had, hbd, hcd, hdd]
      have e1 : listNat [a, b] = 10 * charVal a + charVal b := by
        rw [listNat_pair]
        unfold charVal
        ring
      have e2 : listNat [c, d] = 10 * charVal c + charVal d := by
        rw [listNat_pair]
        unfold charVal
        ring
      rw [hN, e1, e2]
      simp only [normalizeSpec, hC]
      by_cases hcnd : 10 * charVal a + charVal b ≤ 23 ∧ 10 * charVal c + charVal d ≤ 59
      · rw [if_pos hcnd]
        have hfalse : (decide (23 < 10 * charVal a + charVal b) ||
            decide (59 < 10 * charVal c + charVal d)) = false := by
          simp only [Bool.or_eq_false_iff, decide_eq_false_iff_not, not_lt]
          exact hcnd
        rw [hfalse]
        simp
      · rw [if_neg hcnd]
        have htrue : (decide (23 < 10 * charVal a + charVal b) ||
            decide (59 < 10 * charVal c + charVal d)) = true := by
          rw [Bool.or_eq_true]
          simp only [decide_eq_true_eq]
          omega
        rw [htrue]
        simp

end SixteenDollars
